import Mathlib

/-!
Verification development for the mcp-toggl repository (src/src/index.ts and
the caching/hydration layer it drives).

The tool-dispatch surface is embedded from src/src/index.ts.  The caching
and hydration subsystem lives in cache-manager.ts, which is referenced by
index.ts but not present in the source tree; those definitions are modelled
from the specification (sections 3, 4.1, 4.2, 4.3) and are marked as such
in their doc comments.
-/

namespace Toggl

/-- Entity kinds handled by the system.  The Entity Store caches workspaces,
projects and clients; time entries are fetched per request and never cached. -/
inductive Kind where
  | workspace
  | project
  | client
  | timeEntry
deriving DecidableEq, Repr

/-- Whether the Entity Store keeps entries of this kind (spec section 3:
one mapping per entity kind, for workspaces, projects and clients). -/
def Kind.isCached : Kind → Bool
  | .workspace => true
  | .project => true
  | .client => true
  | .timeEntry => false

/-- A cached reference entity: id, display name, and (for projects) the
optional client the project belongs to. -/
structure Entity where
  id : Nat
  name : String
  clientId : Option Nat := none
deriving DecidableEq, Repr

/-- Modelled from the spec: CacheEntry of section 3, a value together with
the timestamp at which it was stored. -/
structure CacheEntry where
  value : Entity
  storedAt : Nat
deriving DecidableEq, Repr

/-- Cache keys: an entity kind together with the entity id. -/
abbrev CacheKey := Kind × Nat

/-- Modelled from the spec: CacheConfig of section 3 (ttl, maxSize,
batchSize), immutable for the process lifetime. -/
structure CacheConfig where
  ttl : Nat
  maxSize : Nat
  batchSize : Nat
deriving DecidableEq, Repr

/-- Modelled from the spec: the Entity Store of section 4.1, a bounded
key-to-value map with recency order tracked for LRU eviction.  The list is
kept in recency order: the head is the most recently used entry and the
last element is the least recently used one. -/
abbrev EntityStore := List (CacheKey × CacheEntry)

/-- Look up the cache entry stored under a key (no TTL check, no reorder). -/
def storeLookup : EntityStore → CacheKey → Option CacheEntry
  | [], _ => none
  | (k, e) :: rest, key => if k = key then some e else storeLookup rest key

/-- Modelled from the spec: invalidate(kind, id) of section 4.1 removes the
entries stored under a key immediately, independent of TTL. -/
def invalidate : EntityStore → CacheKey → EntityStore
  | [], _ => []
  | (k, e) :: rest, key =>
      if k = key then invalidate rest key else (k, e) :: invalidate rest key

/-- Modelled from the spec: invalidateAll() of section 4.1 removes every
entry immediately. -/
def invalidateAll (_s : EntityStore) : EntityStore := []

/-- Modelled from the spec: an entry is valid while now - storedAt < ttl
(section 3 invariant). -/
def isFresh (cfg : CacheConfig) (now : Nat) (e : CacheEntry) : Bool :=
  now - e.storedAt < cfg.ttl

/-- Modelled from the spec: get(kind, id) of section 4.1.  Returns the
cached value only if present and not expired; a successful get marks the
entry as most recently used (moved to the head).  An expired entry is
treated identically to an absent one but is not physically evicted. -/
def storeGet (cfg : CacheConfig) (now : Nat) (s : EntityStore) (key : CacheKey) :
    Option Entity × EntityStore :=
  match storeLookup s key with
  | some e =>
      if isFresh cfg now e then (some e.value, (key, e) :: invalidate s key)
      else (none, s)
  | none => (none, s)

/-- Modelled from the spec: put(kind, id, value) of section 4.1.  Inserts or
refreshes storedAt; a refreshed or inserted entry becomes most recently
used; if the store size would exceed maxSize, the least-recently-used entry
(the last element in recency order) is evicted before inserting.  The
second component counts evictions incurred (0 or 1). -/
def storePut (cfg : CacheConfig) (now : Nat) (s : EntityStore) (key : CacheKey)
    (v : Entity) : EntityStore × Nat :=
  if (storeLookup s key).isSome then
    ((key, ⟨v, now⟩) :: invalidate s key, 0)
  else if cfg.maxSize ≤ s.length then
    ((key, ⟨v, now⟩) :: s.dropLast, 1)
  else
    ((key, ⟨v, now⟩) :: s, 0)

/-- The keys currently held by a store, in recency order. -/
def keysOf (s : EntityStore) : List CacheKey := s.map Prod.fst

/-- An abstract Entity Store operation, used to state invariants over
arbitrary operation sequences (each timed operation carries its clock). -/
inductive StoreOp where
  | get (now : Nat) (key : CacheKey)
  | put (now : Nat) (key : CacheKey) (v : Entity)
  | inval (key : CacheKey)
  | invalAll
deriving DecidableEq, Repr

/-- Apply one Entity Store operation to a (store, eviction count) pair. -/
def applyOp (cfg : CacheConfig) (st : EntityStore × Nat) (op : StoreOp) :
    EntityStore × Nat :=
  match op with
  | .get now key => ((storeGet cfg now st.1 key).2, st.2)
  | .put now key v =>
      let r := storePut cfg now st.1 key v
      (r.1, st.2 + r.2)
  | .inval key => (invalidate st.1 key, st.2)
  | .invalAll => (invalidateAll st.1, st.2)

/-- Run a sequence of Entity Store operations from the empty store. -/
def runOps (cfg : CacheConfig) (ops : List StoreOp) : EntityStore × Nat :=
  ops.foldl (applyOp cfg) ([], 0)

/-- Modelled from the spec: the Upstream Accessor boundary of section 4.4,
an injected dependency whose single-entity fetches return the entity or a
not-found signal.  An unreachable upstream is modelled by fetches that
return none. -/
structure Upstream where
  fetchWorkspace : Nat → Option Entity
  fetchProject : Nat → Option Entity
  fetchClient : Nat → Option Entity

/-- Dispatch a single-entity upstream fetch by kind. -/
def fetchKind (up : Upstream) : Kind → Nat → Option Entity
  | .workspace => up.fetchWorkspace
  | .project => up.fetchProject
  | .client => up.fetchClient
  | .timeEntry => fun _ => none

/-- Modelled from the spec: the Cache Manager state of section 4.2 — the
process-wide Entity Store and the CacheStats counters.  The log records the
kind of each resolution attempt in order, so that resolution order can be
stated. -/
structure CMState where
  store : EntityStore
  hits : Nat
  misses : Nat
  evictions : Nat
  log : List Kind
deriving DecidableEq, Repr

/-- Modelled from the spec: CacheStats of section 3, the counters
hits / misses / evictions / size. -/
structure CacheStats where
  hits : Nat
  misses : Nat
  evictions : Nat
  size : Nat
deriving DecidableEq, Repr

/-- Modelled from the spec: getStats() of section 4.2 returns a snapshot of
the counters; size is the total number of live entries. -/
def getStats (st : CMState) : CacheStats :=
  ⟨st.hits, st.misses, st.evictions, st.store.length⟩

/-- Modelled from the spec: the clearly-marked placeholder name returned
when a single-entity name resolution degrades (section 4.2). -/
def placeholderName : String := "Unknown"

/-- Modelled from the spec: lookup-with-fallback of section 4.2.  Looks the
entity up in the Entity Store; a cache hit increments hits; on miss it
increments misses and performs a single-entity upstream fetch, storing the
result on success.  The kind of the resolution attempt is appended to the
log. -/
def resolveEntity (cfg : CacheConfig) (up : Upstream) (now : Nat) (k : Kind)
    (id : Nat) (st : CMState) : Option Entity × CMState :=
  match storeGet cfg now st.store (k, id) with
  | (some v, s') =>
      (some v, { st with
                  store := s'
                  hits := st.hits + 1
                  log := st.log ++ [k] })
  | (none, s') =>
      match fetchKind up k id with
      | some v =>
          let r := storePut cfg now s' (k, id) v
          (some v, { st with
                      store := r.1
                      misses := st.misses + 1
                      evictions := st.evictions + r.2
                      log := st.log ++ [k] })
      | none =>
          (none, { st with
                    store := s'
                    misses := st.misses + 1
                    log := st.log ++ [k] })

/-- Modelled from the spec: getWorkspaceName(id) of section 4.2; on upstream
failure it returns the placeholder instead of propagating the failure. -/
def getWorkspaceName (cfg : CacheConfig) (up : Upstream) (now : Nat) (id : Nat)
    (st : CMState) : String × CMState :=
  let r := resolveEntity cfg up now .workspace id st
  ((r.1.map Entity.name).getD placeholderName, r.2)

/-- Modelled from the spec: getProjectName(id) of section 4.2. -/
def getProjectName (cfg : CacheConfig) (up : Upstream) (now : Nat) (id : Nat)
    (st : CMState) : String × CMState :=
  let r := resolveEntity cfg up now .project id st
  ((r.1.map Entity.name).getD placeholderName, r.2)

/-- Modelled from the spec: getClientName(id) of section 4.2. -/
def getClientName (cfg : CacheConfig) (up : Upstream) (now : Nat) (id : Nat)
    (st : CMState) : String × CMState :=
  let r := resolveEntity cfg up now .client id st
  ((r.1.map Entity.name).getD placeholderName, r.2)

/-- A raw time-tracking record as fetched from upstream (spec section 3);
only the fields the hydration pipeline inspects are modelled. -/
structure TimeEntry where
  id : Nat
  workspace_id : Nat
  project_id : Option Nat := none
  description : String := ""
deriving DecidableEq, Repr

/-- A time entry enriched with resolved names (spec section 3). -/
structure HydratedTimeEntry extends TimeEntry where
  workspace_name : String
  project_name : Option String := none
  client_name : Option String := none
deriving DecidableEq, Repr

/-- Modelled from the spec: per-entry hydration of section 4.3.  Resolves
the workspace name always, the project only when project_id is present, and
the client only when the resolved project carries a client_id, in that
order; a project lacking a client is not an error. -/
def hydrateOne (cfg : CacheConfig) (up : Upstream) (now : Nat) (e : TimeEntry)
    (st : CMState) : HydratedTimeEntry × CMState :=
  let w := getWorkspaceName cfg up now e.workspace_id st
  match e.project_id with
  | none => (⟨e, w.1, none, none⟩, w.2)
  | some pid =>
      let p := resolveEntity cfg up now .project pid w.2
      let pname := (p.1.map Entity.name).getD placeholderName
      match p.1.bind Entity.clientId with
      | none => (⟨e, w.1, some pname, none⟩, p.2)
      | some cid =>
          let c := getClientName cfg up now cid p.2
          (⟨e, w.1, some pname, some c.1⟩, c.2)

/-- The outcome of the project-resolution stage for one entry: the entity
the pipeline resolved (via cache or upstream), if any.  Mirrors exactly the
project stage of hydrateOne, including that it runs on the state left by
the workspace stage. -/
def projectOutcome (cfg : CacheConfig) (up : Upstream) (now : Nat)
    (e : TimeEntry) (st : CMState) : Option Entity :=
  match e.project_id with
  | none => none
  | some pid =>
      (resolveEntity cfg up now .project pid
        (getWorkspaceName cfg up now e.workspace_id st).2).1

/-- Modelled from the spec: hydrateTimeEntries(entries) of section 4.2 /
4.3 — hydrate each entry in input order, threading the cache state. -/
def hydrateTimeEntries (cfg : CacheConfig) (up : Upstream) (now : Nat) :
    List TimeEntry → CMState → List HydratedTimeEntry × CMState
  | [], st => ([], st)
  | e :: rest, st =>
      let h := hydrateOne cfg up now e st
      let hs := hydrateTimeEntries cfg up now rest h.2
      (h.1 :: hs.1, hs.2)

/-! ### Tool dispatch surface, embedded from src/src/index.ts -/

/-- The tools declared and dispatched by src/src/index.ts. -/
inductive ToolName where
  | toggl_check_auth
  | toggl_get_time_entries
  | toggl_get_current_entry
  | toggl_start_timer
  | toggl_create_entry
  | toggl_stop_timer
  | toggl_daily_report
  | toggl_weekly_report
  | toggl_project_summary
  | toggl_workspace_summary
  | toggl_list_workspaces
  | toggl_list_projects
  | toggl_list_clients
  | toggl_create_client
  | toggl_create_project
  | toggl_update_project
  | toggl_update_time_entry
  | toggl_delete_time_entry
  | toggl_warm_cache
  | toggl_cache_stats
  | toggl_clear_cache
deriving DecidableEq, Repr, Fintype

/-- Cache-relevant actions a tool handler performs, in program order:
an external write through the upstream API, a full cache invalidation
(cache.clearCache()), or a cache lookup performed while hydrating. -/
inductive Action where
  | apiWrite (k : Kind)
  | invalidateAllAction
  | lookup (k : Kind)
deriving DecidableEq, Repr

/-- The cache-relevant action sequence of each tool handler of
src/src/index.ts, in the order the handler's body performs them.  Handlers
that hydrate entries perform cache lookups of workspace, project and client
names (cache.hydrateTimeEntries); list/report fetches of time entries go
straight to the API and are not cache actions; toggl_create_client,
toggl_create_project and toggl_update_project call cache.clearCache()
immediately after the API write; the time-entry mutation handlers
(toggl_start_timer, toggl_create_entry, toggl_stop_timer,
toggl_update_time_entry, toggl_delete_time_entry) perform no invalidation
at all. -/
def handlerTrace : ToolName → List Action
  | .toggl_check_auth => []
  | .toggl_get_time_entries =>
      [.lookup .workspace, .lookup .project, .lookup .client]
  | .toggl_get_current_entry =>
      [.lookup .workspace, .lookup .project, .lookup .client]
  | .toggl_start_timer =>
      [.apiWrite .timeEntry, .lookup .workspace, .lookup .project,
       .lookup .client]
  | .toggl_create_entry =>
      [.apiWrite .timeEntry, .lookup .workspace, .lookup .project,
       .lookup .client]
  | .toggl_stop_timer =>
      [.apiWrite .timeEntry, .lookup .workspace, .lookup .project,
       .lookup .client]
  | .toggl_daily_report =>
      [.lookup .workspace, .lookup .project, .lookup .client]
  | .toggl_weekly_report =>
      [.lookup .workspace, .lookup .project, .lookup .client]
  | .toggl_project_summary =>
      [.lookup .workspace, .lookup .project, .lookup .client]
  | .toggl_workspace_summary =>
      [.lookup .workspace, .lookup .project, .lookup .client]
  | .toggl_list_workspaces => []
  | .toggl_list_projects => []
  | .toggl_list_clients => []
  | .toggl_create_client => [.apiWrite .client, .invalidateAllAction]
  | .toggl_create_project => [.apiWrite .project, .invalidateAllAction]
  | .toggl_update_project => [.apiWrite .project, .invalidateAllAction]
  | .toggl_update_time_entry =>
      [.apiWrite .timeEntry, .lookup .workspace, .lookup .project,
       .lookup .client]
  | .toggl_delete_time_entry => [.apiWrite .timeEntry]
  | .toggl_warm_cache => []
  | .toggl_cache_stats => []
  | .toggl_clear_cache => [.invalidateAllAction]

/-- Kinds written externally and not yet followed by a cache invalidation. -/
structure DirtyKinds where
  workspace : Bool
  project : Bool
  client : Bool
  timeEntry : Bool
deriving DecidableEq, Repr

/-- No kind is dirty. -/
def DirtyKinds.clean : DirtyKinds := ⟨false, false, false, false⟩

/-- Mark a kind as written-and-not-yet-invalidated. -/
def DirtyKinds.mark (d : DirtyKinds) : Kind → DirtyKinds
  | .workspace => { d with workspace := true }
  | .project => { d with project := true }
  | .client => { d with client := true }
  | .timeEntry => { d with timeEntry := true }

/-- Some kind (of any sort) is dirty. -/
def DirtyKinds.anyDirty (d : DirtyKinds) : Bool :=
  d.workspace || d.project || d.client || d.timeEntry

/-- Some cached kind (workspace, project or client) is dirty. -/
def DirtyKinds.anyCachedDirty (d : DirtyKinds) : Bool :=
  d.workspace || d.project || d.client

/-- One step of the literal write-through-invalidation check: a cache lookup
is flagged while any externally written kind is still awaiting
invalidation. -/
def stepStrict (s : Bool × DirtyKinds) (a : Action) : Bool × DirtyKinds :=
  match a with
  | .apiWrite k => (s.1, s.2.mark k)
  | .invalidateAllAction => (s.1, DirtyKinds.clean)
  | .lookup _ => (s.1 && !s.2.anyDirty, s.2)

/-- The literal reading of the write-through-invalidation claim over an
action sequence: every external write (of any kind) is followed by a cache
invalidation covering it before any subsequent cache lookup. -/
def writesInvalidatedStrict (tr : List Action) : Bool :=
  (tr.foldl stepStrict (true, DirtyKinds.clean)).1

/-- One step of the cached-kinds write-through-invalidation check: a cache
lookup is flagged only while a cached kind (workspace / project / client)
is still awaiting invalidation. -/
def stepCached (s : Bool × DirtyKinds) (a : Action) : Bool × DirtyKinds :=
  match a with
  | .apiWrite k => (s.1, s.2.mark k)
  | .invalidateAllAction => (s.1, DirtyKinds.clean)
  | .lookup _ => (s.1 && !s.2.anyCachedDirty, s.2)

/-- Write-through invalidation restricted to the kinds the Entity Store
actually caches: every external write of a workspace, project or client is
followed by a cache invalidation before any subsequent cache lookup. -/
def writesInvalidatedCached (tr : List Action) : Bool :=
  (tr.foldl stepCached (true, DirtyKinds.clean)).1

/-- toggl_cache_stats of src/src/index.ts reports the hit rate as a whole
percentage: Math.round((hits / (hits + misses)) * 100) when hits + misses
is positive, and 0 otherwise.  Math.round(x) is floor(x + 1/2), which on
naturals is (200 * hits + n) / (2 * n) with n = hits + misses, using
natural division. -/
def hitRatePercent (hits misses : Nat) : Nat :=
  if 0 < hits + misses then
    (200 * hits + (hits + misses)) / (2 * (hits + misses))
  else 0

/-! ### Tool-call error handling, embedded from src/src/index.ts -/

/-- What a tool case body produces when run: a successful JSON body, or a
thrown exception carrying its message (the message of a JavaScript Error,
possibly empty). -/
inductive CaseResult where
  | success (body : String)
  | failure (msg : String)
deriving DecidableEq, Repr

/-- The response the CallToolRequestSchema handler returns to the protocol
layer: always a content response; on the error path the serialized body
carries error: true and a message. -/
structure ToolResponse where
  isContent : Bool
  errorFlag : Bool
  message : String
deriving DecidableEq, Repr

/-- Parse a request's tool name against the names dispatched by the switch
in src/src/index.ts. -/
def toolNameOf : String → Option ToolName
  | "toggl_check_auth" => some .toggl_check_auth
  | "toggl_get_time_entries" => some .toggl_get_time_entries
  | "toggl_get_current_entry" => some .toggl_get_current_entry
  | "toggl_start_timer" => some .toggl_start_timer
  | "toggl_create_entry" => some .toggl_create_entry
  | "toggl_stop_timer" => some .toggl_stop_timer
  | "toggl_daily_report" => some .toggl_daily_report
  | "toggl_weekly_report" => some .toggl_weekly_report
  | "toggl_project_summary" => some .toggl_project_summary
  | "toggl_workspace_summary" => some .toggl_workspace_summary
  | "toggl_list_workspaces" => some .toggl_list_workspaces
  | "toggl_list_projects" => some .toggl_list_projects
  | "toggl_list_clients" => some .toggl_list_clients
  | "toggl_create_client" => some .toggl_create_client
  | "toggl_create_project" => some .toggl_create_project
  | "toggl_update_project" => some .toggl_update_project
  | "toggl_update_time_entry" => some .toggl_update_time_entry
  | "toggl_delete_time_entry" => some .toggl_delete_time_entry
  | "toggl_warm_cache" => some .toggl_warm_cache
  | "toggl_cache_stats" => some .toggl_cache_stats
  | "toggl_clear_cache" => some .toggl_clear_cache
  | _ => none

/-- The environment a tool call runs in: what each known tool's case body
would produce (success, or a thrown exception), determined by the API and
cache collaborators. -/
structure CaseEnv where
  outcome : ToolName → CaseResult

/-- The switch statement of the CallToolRequestSchema handler: a known tool
runs its case body; an unknown name throws the Unknown-tool error. -/
def dispatch (env : CaseEnv) (name : String) : CaseResult :=
  match toolNameOf name with
  | some t => env.outcome t
  | none => .failure ("Unknown tool: " ++ name)

/-- The CallToolRequestSchema handler of src/src/index.ts: the whole switch
runs inside try/catch, and the catch serializes the thrown error into a
content response with error: true and message error.message, substituting
a fixed fallback when error.message is falsy (empty). -/
def handleRequest (env : CaseEnv) (name : String) : ToolResponse :=
  match dispatch env name with
  | .success b => ⟨true, false, b⟩
  | .failure m => ⟨true, true, if m = "" then "An error occurred" else m⟩

/-! ### Lazy cache warm, embedded from src/src/index.ts -/

/-- The module-level mutable flag cacheWarmed of src/src/index.ts. -/
structure SrvState where
  cacheWarmed : Bool
deriving DecidableEq, Repr

/-- ensureCache of src/src/index.ts: if the cache is not warmed, call
cache.warmCache inside try/catch; on success set cacheWarmed, on failure
only log — the exception is swallowed and the flag stays false.  warmOk
injects whether warmCache succeeds; the Bool result records whether a warm
was attempted. -/
def ensureCache (warmOk : Bool) (s : SrvState) : SrvState × Bool :=
  if s.cacheWarmed then (s, false)
  else if warmOk then (⟨true⟩, true)
  else (s, true)

/-- The toggl_warm_cache handler of src/src/index.ts: warmCache is awaited
without a local catch, so a failure propagates to the outer catch (an error
response) and cacheWarmed is left unchanged; on success cacheWarmed is set.
The Bool result records whether the call produced an error response. -/
def warmCacheTool (warmOk : Bool) (s : SrvState) : SrvState × Bool :=
  if warmOk then (⟨true⟩, false) else (s, true)

/-- The cacheWarmed reset performed by the toggl_clear_cache handler and by
the mutation handlers toggl_create_client / toggl_create_project /
toggl_update_project of src/src/index.ts (cacheWarmed = false right after
cache.clearCache()). -/
def resetWarmFlag (_s : SrvState) : SrvState := ⟨false⟩

/-! ### toggl_create_entry stop/duration derivation, embedded from
src/src/index.ts lines 719-749 -/

/-- Math.ceil(a / 1000) on an integer count of milliseconds. -/
def ceilDiv1000 (a : Int) : Int := -((-a).ediv 1000)

/-- JavaScript truthiness of the optional numeric duration argument: an
absent duration and a zero duration are both falsy. -/
def truthyDur : Option Int → Bool
  | some d => d != 0
  | none => false

/-- The stop/duration reconciliation of toggl_create_entry
(src/src/index.ts lines 729-738).  Times are modelled as integer
milliseconds since the epoch (Date.getTime); a provided stop string is
assumed nonempty, hence truthy.  The branch structure mirrors the source:
stop truthy and duration falsy derives duration as
Math.ceil((stop - start) / 1000); duration truthy and stop falsy derives
stop as start + duration * 1000; both falsy throws; both truthy passes the
arguments through unchanged.  The result is the (stop, duration) pair
handed to api.createTimeEntry, or the thrown error message. -/
def deriveStopDuration (startMs : Int) (stop : Option Int) (dur : Option Int) :
    Except String (Int × Int) :=
  if stop.isSome && !truthyDur dur then
    let s := stop.getD 0
    .ok (s, ceilDiv1000 (s - startMs))
  else if truthyDur dur && !stop.isSome then
    let d := dur.getD 0
    .ok (startMs + d * 1000, d)
  else if !stop.isSome && !truthyDur dur then
    .error "Either stop or duration is required"
  else
    .ok (stop.getD 0, dur.getD 0)

/-- How many upstream create calls the toggl_create_entry handler performs:
api.createTimeEntry runs only after the stop/duration reconciliation
succeeds; the thrown error aborts the case body first. -/
def createEntryUpstreamCalls (startMs : Int) (stop : Option Int)
    (dur : Option Int) : Nat :=
  match deriveStopDuration startMs stop dur with
  | .ok _ => 1
  | .error _ => 0

/-! ## Theorems -/

/-- A put leaves the inserted entry at the head of the store, so looking it
up finds exactly the inserted value with storedAt equal to the put time. -/
lemma storeLookup_storePut_self (cfg : CacheConfig) (now : Nat)
    (s : EntityStore) (key : CacheKey) (v : Entity) :
    storeLookup (storePut cfg now s key v).1 key = some ⟨v, now⟩ := by
  unfold storePut
  split
  · simp [storeLookup]
  · split <;> simp [storeLookup]

/-- After invalidating a key, looking it up finds nothing. -/
lemma storeLookup_invalidate_self (s : EntityStore) (key : CacheKey) :
    storeLookup (invalidate s key) key = none := by
  induction s with
  | nil => rfl
  | cons p rest ih =>
      rcases p with ⟨k, e⟩
      by_cases h : k = key <;> simp [invalidate, h, storeLookup, ih]

/-- Invalidating one key does not change lookups of other keys. -/
lemma storeLookup_invalidate_ne (s : EntityStore) (key key' : CacheKey)
    (h : key' ≠ key) :
    storeLookup (invalidate s key) key' = storeLookup s key' := by
  induction s with
  | nil => rfl
  | cons p rest ih =>
      rcases p with ⟨k, e⟩
      by_cases hk : k = key
      · subst hk
        have hne : ¬ k = key' := fun hh => h hh.symm
        simp [invalidate, storeLookup, hne, ih]
      · simp [invalidate, storeLookup, hk, ih]

/-- A cache hit: the store holds a fresh entry for the key; the get returns
its value and moves the entry to the head. -/
lemma storeGet_hit_decomp (cfg : CacheConfig) (now : Nat) (s : EntityStore)
    (key : CacheKey) (v : Entity)
    (h : (storeGet cfg now s key).1 = some v) :
    ∃ e, storeLookup s key = some e ∧ e.value = v ∧ isFresh cfg now e = true ∧
      (storeGet cfg now s key).2 = (key, e) :: invalidate s key := by
  unfold storeGet at h
  split at h
  next e hl =>
    split at h
    next hf =>
      refine ⟨e, hl, ?_, hf, ?_⟩
      · simpa using h
      · unfold storeGet
        rw [hl]
        simp [hf]
    next hf =>
      simp at h
  next hl =>
    simp at h

/-- A cache hit leaves the resolved value, increments hits, and appends the
kind to the resolution log. -/
lemma resolveEntity_hit (cfg : CacheConfig) (up : Upstream) (now : Nat)
    (k : Kind) (id : Nat) (st : CMState) (v : Entity)
    (h : (storeGet cfg now st.store (k, id)).1 = some v) :
    resolveEntity cfg up now k id st =
      (some v, { st with
                  store := (storeGet cfg now st.store (k, id)).2
                  hits := st.hits + 1
                  log := st.log ++ [k] }) := by
  unfold resolveEntity
  rcases hg : storeGet cfg now st.store (k, id) with ⟨f, s'⟩
  rw [hg] at h
  simp only at h
  subst h
  rfl

/-- A cache miss with a failing upstream fetch: the resolution returns
none, increments misses (hits and the store are untouched up to the get's
reordering), and appends the kind to the log. -/
lemma resolveEntity_miss_fail (cfg : CacheConfig) (up : Upstream) (now : Nat)
    (k : Kind) (id : Nat) (st : CMState)
    (h : (storeGet cfg now st.store (k, id)).1 = none)
    (hf : fetchKind up k id = none) :
    resolveEntity cfg up now k id st =
      (none, { st with
                store := (storeGet cfg now st.store (k, id)).2
                misses := st.misses + 1
                log := st.log ++ [k] }) := by
  unfold resolveEntity
  rcases hg : storeGet cfg now st.store (k, id) with ⟨f, s'⟩
  rw [hg] at h
  simp only at h
  subst h
  simp [hf]

/-- A cache miss with a successful upstream fetch: the resolution returns
the fetched value, increments misses, and stores the value. -/
lemma resolveEntity_miss_fetch (cfg : CacheConfig) (up : Upstream) (now : Nat)
    (k : Kind) (id : Nat) (st : CMState) (v : Entity)
    (h : (storeGet cfg now st.store (k, id)).1 = none)
    (hf : fetchKind up k id = some v) :
    resolveEntity cfg up now k id st =
      (some v,
        { st with
          store := (storePut cfg now (storeGet cfg now st.store (k, id)).2
            (k, id) v).1,
          misses := st.misses + 1,
          evictions := st.evictions +
            (storePut cfg now (storeGet cfg now st.store (k, id)).2
              (k, id) v).2,
          log := st.log ++ [k] }) := by
  unfold resolveEntity
  rcases hg : storeGet cfg now st.store (k, id) with ⟨f, s'⟩
  rw [hg] at h
  simp only at h
  subst h
  simp [hf]

/-- Every resolution attempt appends exactly its kind to the log. -/
lemma resolveEntity_log (cfg : CacheConfig) (up : Upstream) (now : Nat)
    (k : Kind) (id : Nat) (st : CMState) :
    (resolveEntity cfg up now k id st).2.log = st.log ++ [k] := by
  unfold resolveEntity
  rcases hg : storeGet cfg now st.store (k, id) with ⟨f, s'⟩
  cases f
  · cases hf : fetchKind up k id <;> simp [hf]
  · rfl

/-- C2: for every entity inserted via put at time t, a get of the same key
returns exactly the inserted value while now - storedAt < ttl; once
now - storedAt reaches ttl the get returns none exactly as if the entry
were absent — a fresh upstream fetch is triggered with misses incremented,
just as for an absent entry — even though the entry is still physically
present in the store. -/
theorem store_ttl_get_put (cfg : CacheConfig) (up : Upstream)
    (s : EntityStore) (k : Kind) (id : Nat) (v : Entity) (t now : Nat) :
    (now - t < cfg.ttl →
      (storeGet cfg now (storePut cfg t s (k, id) v).1 (k, id)).1 = some v)
    ∧ (cfg.ttl ≤ now - t →
        (storeGet cfg now (storePut cfg t s (k, id) v).1 (k, id)).1 = none
        ∧ (storeGet cfg now (storePut cfg t s (k, id) v).1 (k, id)).1 =
            (storeGet cfg now
              (invalidate (storePut cfg t s (k, id) v).1 (k, id)) (k, id)).1
        ∧ storeLookup
            (storeGet cfg now (storePut cfg t s (k, id) v).1 (k, id)).2
            (k, id) = some ⟨v, t⟩
        ∧ (∀ st : CMState, st.store = (storePut cfg t s (k, id) v).1 →
            (resolveEntity cfg up now k id st).1 = fetchKind up k id
            ∧ (resolveEntity cfg up now k id st).2.misses = st.misses + 1)) := by
  have hl := storeLookup_storePut_self cfg t s (k, id) v
  constructor
  · intro hfresh
    unfold storeGet
    rw [hl]
    simp [isFresh, hfresh]
  · intro hexp
    have hstale : isFresh cfg now (⟨v, t⟩ : CacheEntry) = false := by
      simp [isFresh]
      omega
    have hget : storeGet cfg now (storePut cfg t s (k, id) v).1 (k, id) =
        (none, (storePut cfg t s (k, id) v).1) := by
      unfold storeGet
      rw [hl]
      simp [hstale]
    refine ⟨by rw [hget], ?_, ?_, ?_⟩
    · rw [hget]
      unfold storeGet
      rw [storeLookup_invalidate_self]
    · rw [hget]
      exact hl
    · intro st hst
      have hg1 : (storeGet cfg now st.store (k, id)).1 = none := by
        rw [hst, hget]
      cases hf : fetchKind up k id with
      | none =>
          rw [resolveEntity_miss_fail cfg up now k id st hg1 hf]
          exact ⟨rfl, rfl⟩
      | some w =>
          rw [resolveEntity_miss_fetch cfg up now k id st w hg1 hf]
          exact ⟨rfl, rfl⟩

/-- C2 witness: a concrete workspace entity put at time 0 with ttl 10 is
returned by get at time 5 and treated as absent at time 15. -/
theorem store_ttl_get_put_witness :
    (storeGet ⟨10, 3, 100⟩ 5
      (storePut ⟨10, 3, 100⟩ 0 [] (Kind.workspace, 1) ⟨1, "Acme", none⟩).1
      (Kind.workspace, 1)).1 = some ⟨1, "Acme", none⟩
    ∧ (storeGet ⟨10, 3, 100⟩ 15
        (storePut ⟨10, 3, 100⟩ 0 [] (Kind.workspace, 1) ⟨1, "Acme", none⟩).1
        (Kind.workspace, 1)).1 = none := by
  constructor
  · exact (store_ttl_get_put ⟨10, 3, 100⟩ ⟨fun _ => none, fun _ => none,
      fun _ => none⟩ [] Kind.workspace 1 ⟨1, "Acme", none⟩ 0 5).1 (by decide)
  · exact ((store_ttl_get_put ⟨10, 3, 100⟩ ⟨fun _ => none, fun _ => none,
      fun _ => none⟩ [] Kind.workspace 1 ⟨1, "Acme", none⟩ 0 15).2
      (by decide)).1

/-- A get on a key the store does not hold returns none and leaves the
store unchanged. -/
lemma storeGet_none_of_lookup_none (cfg : CacheConfig) (now : Nat)
    (s : EntityStore) (key : CacheKey) (h : storeLookup s key = none) :
    storeGet cfg now s key = (none, s) := by
  unfold storeGet
  rw [h]

/-- Invalidation never grows the store. -/
lemma invalidate_length_le (s : EntityStore) (key : CacheKey) :
    (invalidate s key).length ≤ s.length := by
  induction s with
  | nil => simp [invalidate]
  | cons p rest ih =>
      rcases p with ⟨k, e⟩
      by_cases hk : k = key <;> simp [invalidate, hk] <;> omega

/-- Invalidating a key the store holds strictly shrinks the store. -/
lemma invalidate_length_lt (s : EntityStore) (key : CacheKey)
    (e : CacheEntry) (h : storeLookup s key = some e) :
    (invalidate s key).length < s.length := by
  induction s with
  | nil => simp [storeLookup] at h
  | cons p rest ih =>
      rcases p with ⟨k, e'⟩
      by_cases hk : k = key
      · simp [invalidate, hk]
        have := invalidate_length_le rest key
        omega
      · rw [storeLookup, if_neg hk] at h
        simp [invalidate, hk]
        exact ih h

/-- A get never grows the store. -/
lemma storeGet_length_le (cfg : CacheConfig) (now : Nat) (s : EntityStore)
    (key : CacheKey) : ((storeGet cfg now s key).2).length ≤ s.length := by
  unfold storeGet
  split
  next e hl =>
    split
    · have := invalidate_length_lt s key e hl
      simp
      omega
    · simp
  next hl => simp

/-- A put into a store within capacity stays within capacity. -/
lemma storePut_length_le (cfg : CacheConfig) (now : Nat) (s : EntityStore)
    (key : CacheKey) (v : Entity) (hm : 1 ≤ cfg.maxSize)
    (h : s.length ≤ cfg.maxSize) :
    ((storePut cfg now s key v).1).length ≤ cfg.maxSize := by
  unfold storePut
  split
  next hsome =>
    rcases Option.isSome_iff_exists.mp hsome with ⟨e, he⟩
    have := invalidate_length_lt s key e he
    simp
    omega
  next hnone =>
    split
    next hfull =>
      simp [List.length_dropLast]
      omega
    next hroom =>
      simp
      omega

/-- Looking up a key that is not among the store's keys finds nothing. -/
lemma storeLookup_none_of_not_mem (s : EntityStore) (key : CacheKey)
    (h : key ∉ keysOf s) : storeLookup s key = none := by
  induction s with
  | nil => rfl
  | cons p rest ih =>
      rcases p with ⟨k, e⟩
      simp [keysOf] at h
      rw [storeLookup, if_neg (fun he => h.1 he.symm)]
      exact ih (by simp [keysOf, h.2])

/-- Any operation sequence started within capacity stays within capacity. -/
lemma runOps_length_le (cfg : CacheConfig) (hm : 1 ≤ cfg.maxSize) :
    ∀ (ops : List StoreOp) (s : EntityStore) (ev : Nat),
      s.length ≤ cfg.maxSize →
      ((ops.foldl (applyOp cfg) (s, ev)).1).length ≤ cfg.maxSize := by
  intro ops
  induction ops with
  | nil => intro s ev h; simpa using h
  | cons op rest ih =>
      intro s ev h
      rw [List.foldl_cons]
      cases op with
      | get now key =>
          exact ih _ _ (le_trans (storeGet_length_le cfg now s key) h)
      | put now key v =>
          exact ih _ _ (storePut_length_le cfg now s key v hm h)
      | inval key =>
          exact ih _ _ (le_trans (invalidate_length_le s key) h)
      | invalAll =>
          exact ih _ _ (by simp [invalidateAll])

/-- Putting a batch of distinct fresh keys into a store with room for all
of them inserts them one by one at the head, with no eviction. -/
lemma runPuts_fresh (cfg : CacheConfig) (t : Nat) :
    ∀ (inputs : List (CacheKey × Entity)) (s : EntityStore) (ev : Nat),
      (inputs.map Prod.fst).Nodup →
      (∀ p ∈ inputs, p.1 ∉ keysOf s) →
      s.length + inputs.length ≤ cfg.maxSize →
      (inputs.map (fun p => StoreOp.put t p.1 p.2)).foldl (applyOp cfg) (s, ev)
        = ((inputs.map
            (fun p => (p.1, (⟨p.2, t⟩ : CacheEntry)))).reverse ++ s, ev) := by
  intro inputs
  induction inputs with
  | nil => intro s ev _ _ _; simp
  | cons q rest ih =>
      intro s ev hnd hfresh hlen
      have hlk : storeLookup s q.1 = none :=
        storeLookup_none_of_not_mem s q.1 (hfresh q (by simp))
      have hlt : ¬ cfg.maxSize ≤ s.length := by
        simp [List.length_cons] at hlen
        omega
      have happ : applyOp cfg (s, ev) (StoreOp.put t q.1 q.2) =
          ((q.1, (⟨q.2, t⟩ : CacheEntry)) :: s, ev) := by
        simp [applyOp, storePut, hlk, hlt]
      rw [List.map_cons, List.foldl_cons, happ]
      rw [List.map_cons, List.nodup_cons] at hnd
      have hfresh2 : ∀ p ∈ rest,
          p.1 ∉ keysOf ((q.1, (⟨q.2, t⟩ : CacheEntry)) :: s) := by
        intro p hp
        simp [keysOf]
        constructor
        · intro he
          exact hnd.1 (he ▸ List.mem_map_of_mem Prod.fst hp)
        · have := hfresh p (by simp [hp])
          simpa [keysOf] using this
      have hlen2 : ((q.1, (⟨q.2, t⟩ : CacheEntry)) :: s).length + rest.length
          ≤ cfg.maxSize := by
        simp [List.length_cons] at hlen ⊢
        omega
      rw [ih _ ev hnd.2 hfresh2 hlen2]
      simp

/-- The keys of the store built by a fresh batch insert are the input keys
in reverse order. -/
lemma keysOf_mk_reverse (t : Nat) (ys : List (CacheKey × Entity)) :
    keysOf ((ys.map
      (fun p => (p.1, (⟨p.2, t⟩ : CacheEntry)))).reverse ++ []) =
      (ys.map Prod.fst).reverse := by
  simp [keysOf, List.map_reverse, List.map_map, Function.comp]

/-- Inserting maxSize + 1 distinct entries into the empty store evicts
exactly once, and the surviving keys are all inserted keys except the
first, in reverse insertion order. -/
lemma lru_insert_overflow (cfg : CacheConfig) (hm : 1 ≤ cfg.maxSize)
    (t : Nat) (inputs : List (CacheKey × Entity))
    (hnd : (inputs.map Prod.fst).Nodup)
    (hlen : inputs.length = cfg.maxSize + 1) :
    (runOps cfg (inputs.map fun p => StoreOp.put t p.1 p.2)).2 = 1
    ∧ keysOf (runOps cfg (inputs.map fun p => StoreOp.put t p.1 p.2)).1 =
        ((inputs.map Prod.fst).tail).reverse := by
  have hne0 : inputs ≠ [] := by
    intro hh
    rw [hh] at hlen
    simp at hlen
  obtain ⟨ys, z, hsplit⟩ : ∃ ys z, inputs = ys ++ [z] :=
    ⟨inputs.dropLast, inputs.getLast hne0,
      (List.dropLast_append_getLast hne0).symm⟩
  subst hsplit
  have hyslen : ys.length = cfg.maxSize := by
    simp [List.length_append] at hlen
    omega
  rw [show (ys ++ [z]).map Prod.fst = ys.map Prod.fst ++ [z.1] by simp] at hnd
  rw [List.nodup_append] at hnd
  obtain ⟨hndys, -, hdisj⟩ := hnd
  have hzout : z.1 ∉ ys.map Prod.fst := by
    intro hmem
    exact hdisj hmem (by simp)
  have hfold1 := runPuts_fresh cfg t ys [] 0 hndys
    (by intro p hp; simp [keysOf])
    (by simp [hyslen])
  rw [List.append_nil] at hfold1
  set R : EntityStore :=
    (ys.map (fun p => (p.1, (⟨p.2, t⟩ : CacheEntry)))).reverse with hRdef
  have hkR : keysOf R = (ys.map Prod.fst).reverse := by
    rw [hRdef]
    simp [keysOf, List.map_reverse, List.map_map, Function.comp]
  have hlkR : storeLookup R z.1 = none := by
    apply storeLookup_none_of_not_mem
    rw [hkR]
    simpa [List.mem_reverse] using hzout
  have hRlen : R.length = cfg.maxSize := by
    rw [hRdef]
    simp [hyslen]
  have hput : storePut cfg t R z.1 z.2 =
      ((z.1, (⟨z.2, t⟩ : CacheEntry)) :: R.dropLast, 1) := by
    unfold storePut
    rw [hlkR]
    simp [hRlen]
  have happz : applyOp cfg (R, 0) (StoreOp.put t z.1 z.2) =
      ((z.1, (⟨z.2, t⟩ : CacheEntry)) :: R.dropLast, 1) := by
    simp [applyOp, hput]
  have hrun : runOps cfg ((ys ++ [z]).map fun p => StoreOp.put t p.1 p.2) =
      ((z.1, (⟨z.2, t⟩ : CacheEntry)) :: R.dropLast, 1) := by
    unfold runOps
    rw [List.map_append, List.foldl_append, hfold1]
    simp only [List.map_cons, List.map_nil, List.foldl_cons, List.foldl_nil]
    exact happz
  rw [hrun]
  refine ⟨rfl, ?_⟩
  have hkD : keysOf R.dropLast = ((ys.map Prod.fst).reverse).dropLast := by
    rw [show keysOf R.dropLast = (keysOf R).dropLast by
      simp [keysOf, List.map_dropLast]]
    rw [hkR]
  rcases hcase : ys.map Prod.fst with _ | ⟨a, as⟩
  · have h0 : ys.length = 0 := by
      simpa using congrArg List.length hcase
    omega
  · rw [hcase] at hkD
    have hkD2 : List.map Prod.fst (List.dropLast R) =
        ((a :: as).reverse).dropLast := hkD
    simp only [keysOf, List.map_cons, List.map_append, List.map_nil]
    rw [hcase, hkD2]
    rw [show ((a :: as) ++ [z.1] : List CacheKey).tail = as ++ [z.1] by rfl]
    rw [List.reverse_append]
    simp [List.reverse_cons, List.dropLast_concat]

/-- C3: the Entity Store never exceeds maxSize under any operation
sequence; a put always leaves the key it inserts present (so an eviction
never removes the entry most recently touched by put); and inserting
maxSize + 1 distinct entries into the empty store evicts exactly once,
the surviving keys being all but the first-inserted (least recently used)
key in recency order — the first-inserted key is evicted and the most
recently inserted key survives. -/
theorem store_lru_bound (cfg : CacheConfig) (hm : 1 ≤ cfg.maxSize) :
    (∀ ops : List StoreOp, ((runOps cfg ops).1).length ≤ cfg.maxSize)
    ∧ (∀ (now : Nat) (s : EntityStore) (key : CacheKey) (v : Entity),
        storeLookup (storePut cfg now s key v).1 key = some ⟨v, now⟩)
    ∧ (∀ (t : Nat) (inputs : List (CacheKey × Entity)),
        (inputs.map Prod.fst).Nodup → inputs.length = cfg.maxSize + 1 →
        (runOps cfg (inputs.map fun p => StoreOp.put t p.1 p.2)).2 = 1
        ∧ keysOf (runOps cfg (inputs.map fun p => StoreOp.put t p.1 p.2)).1 =
            ((inputs.map Prod.fst).tail).reverse
        ∧ (∀ k0, (inputs.map Prod.fst).head? = some k0 →
            k0 ∉ keysOf
              (runOps cfg (inputs.map fun p => StoreOp.put t p.1 p.2)).1)
        ∧ (∀ kl, (inputs.map Prod.fst).getLast? = some kl →
            kl ∈ keysOf
              (runOps cfg (inputs.map fun p => StoreOp.put t p.1 p.2)).1)) := by
  refine ⟨?_, ?_, ?_⟩
  · intro ops
    exact runOps_length_le cfg hm ops [] 0 (by simp)
  · intro now s key v
    exact storeLookup_storePut_self cfg now s key v
  · intro t inputs hnd hlen
    obtain ⟨h1, h2⟩ := lru_insert_overflow cfg hm t inputs hnd hlen
    refine ⟨h1, h2, ?_, ?_⟩
    · intro k0 hk0
      rw [h2]
      rcases hc : inputs.map Prod.fst with _ | ⟨a, as⟩
      · rw [hc] at hk0
        simp at hk0
      · rw [hc] at hk0 hnd
        rw [List.nodup_cons] at hnd
        simp at hk0
        subst hk0
        simp [List.mem_reverse]
        exact hnd.1
    · intro kl hkl
      rw [h2]
      rcases hc : inputs.map Prod.fst with _ | ⟨a, as⟩
      · rw [hc] at hkl
        simp at hkl
      · rw [hc] at hkl
        have hlenas : as.length = cfg.maxSize := by
          have := congrArg List.length hc
          simp [hlen] at this
          omega
        rcases as with _ | ⟨b, bs⟩
        · simp at hlenas
          omega
        · rw [List.getLast?_cons_cons] at hkl
          obtain ⟨hh, heq⟩ :=
            List.mem_getLast?_eq_getLast (Option.mem_def.mpr hkl)
          show kl ∈ (b :: bs).reverse
          rw [List.mem_reverse]
          exact heq ▸ List.getLast_mem hh

/-- C3 witness: with maxSize 2, a concrete run of three puts stays within
bound; the three distinct insertions evict exactly the first key, keeping
the last two in recency order. -/
theorem store_lru_bound_witness :
    ((runOps ⟨10, 2, 100⟩
      [StoreOp.put 0 (Kind.workspace, 1) ⟨1, "A", none⟩,
       StoreOp.put 0 (Kind.workspace, 2) ⟨2, "B", none⟩,
       StoreOp.put 0 (Kind.workspace, 3) ⟨3, "C", none⟩]).1).length ≤ 2
    ∧ (runOps ⟨10, 2, 100⟩
        ([((Kind.workspace, 1), ⟨1, "A", none⟩),
          ((Kind.workspace, 2), ⟨2, "B", none⟩),
          ((Kind.workspace, 3), ⟨3, "C", none⟩)].map
            fun p => StoreOp.put 0 p.1 p.2)).2 = 1
    ∧ keysOf (runOps ⟨10, 2, 100⟩
        ([((Kind.workspace, 1), ⟨1, "A", none⟩),
          ((Kind.workspace, 2), ⟨2, "B", none⟩),
          ((Kind.workspace, 3), ⟨3, "C", none⟩)].map
            fun p => StoreOp.put 0 p.1 p.2)).1 =
        [(Kind.workspace, 3), (Kind.workspace, 2)]
    ∧ (Kind.workspace, 1) ∉ keysOf (runOps ⟨10, 2, 100⟩
        ([((Kind.workspace, 1), ⟨1, "A", none⟩),
          ((Kind.workspace, 2), ⟨2, "B", none⟩),
          ((Kind.workspace, 3), ⟨3, "C", none⟩)].map
            fun p => StoreOp.put 0 p.1 p.2)).1 := by
  have h := store_lru_bound ⟨10, 2, 100⟩ (by decide)
  have hc := h.2.2 0
    [((Kind.workspace, 1), ⟨1, "A", none⟩),
     ((Kind.workspace, 2), ⟨2, "B", none⟩),
     ((Kind.workspace, 3), ⟨3, "C", none⟩)]
    (by decide) rfl
  refine ⟨h.1 _, hc.1, ?_, hc.2.2.1 (Kind.workspace, 1) rfl⟩
  have h2 := hc.2.1
  simpa using h2

/-- Hydration never alters the underlying time entry: the hydrated record
projects back to exactly the input entry. -/
lemma hydrateOne_toTimeEntry (cfg : CacheConfig) (up : Upstream) (now : Nat)
    (e : TimeEntry) (st : CMState) :
    (hydrateOne cfg up now e st).1.toTimeEntry = e := by
  unfold hydrateOne
  cases hp : e.project_id with
  | none => simp [hp]
  | some pid =>
      simp only [hp]
      split <;> rfl

/-- Batch hydration maps each input entry to a hydrated record carrying
that same entry, in order. -/
lemma hydrate_map_toTimeEntry (cfg : CacheConfig) (up : Upstream) (now : Nat) :
    ∀ (es : List TimeEntry) (st : CMState),
      ((hydrateTimeEntries cfg up now es st).1).map
        HydratedTimeEntry.toTimeEntry = es := by
  intro es
  induction es with
  | nil => intro st; rfl
  | cons e rest ih =>
      intro st
      simp [hydrateTimeEntries, hydrateOne_toTimeEntry, ih]

/-- The workspace-name lookup logs exactly one workspace resolution. -/
lemma getWorkspaceName_log (cfg : CacheConfig) (up : Upstream) (now : Nat)
    (id : Nat) (st : CMState) :
    (getWorkspaceName cfg up now id st).2.log = st.log ++ [Kind.workspace] := by
  simp [getWorkspaceName, resolveEntity_log]

/-- The client-name lookup logs exactly one client resolution. -/
lemma getClientName_log (cfg : CacheConfig) (up : Upstream) (now : Nat)
    (id : Nat) (st : CMState) :
    (getClientName cfg up now id st).2.log = st.log ++ [Kind.client] := by
  simp [getClientName, resolveEntity_log]

/-- C4: for every input list of time entries (including the empty list),
hydrateTimeEntries returns a list of the same length, in the same order,
whose i-th element is the i-th input entry with name fields added; no
entries are dropped or added (the outputs project back to exactly the
input list). -/
theorem hydrate_preserves_entries (cfg : CacheConfig) (up : Upstream)
    (now : Nat) (es : List TimeEntry) (st : CMState) :
    ((hydrateTimeEntries cfg up now es st).1).map
        HydratedTimeEntry.toTimeEntry = es
    ∧ hydrateTimeEntries cfg up now [] st = ([], st)
    ∧ ((hydrateTimeEntries cfg up now es st).1).length = es.length := by
  refine ⟨hydrate_map_toTimeEntry cfg up now es st, rfl, ?_⟩
  have h := congrArg List.length (hydrate_map_toTimeEntry cfg up now es st)
  simpa using h

/-- C6: per-entry resolution — the hydrated record keeps the entry intact,
workspace_name is always resolved (the log always records a workspace
resolution first), project_name is present exactly when project_id is,
client_name is present exactly when the resolved project carries a
client_id (a resolved project lacking a client yields client_name none and
no client resolution, not an error), and the resolution log shows the
order workspace, then project, then client. -/
theorem hydration_resolution_order (cfg : CacheConfig) (up : Upstream)
    (now : Nat) (e : TimeEntry) (st : CMState) :
    (hydrateOne cfg up now e st).1.toTimeEntry = e
    ∧ ((hydrateOne cfg up now e st).1.project_name).isSome =
        (e.project_id).isSome
    ∧ ((hydrateOne cfg up now e st).1.client_name).isSome =
        ((projectOutcome cfg up now e st).bind Entity.clientId).isSome
    ∧ (hydrateOne cfg up now e st).2.log =
        st.log ++ [Kind.workspace]
          ++ (if (e.project_id).isSome then [Kind.project] else [])
          ++ (if ((projectOutcome cfg up now e st).bind Entity.clientId).isSome
              then [Kind.client] else []) := by
  refine ⟨hydrateOne_toTimeEntry cfg up now e st, ?_, ?_, ?_⟩
  · cases hp : e.project_id with
    | none => simp [hydrateOne, hp]
    | some pid =>
        simp only [hydrateOne, hp]
        split <;> simp
  · cases hp : e.project_id with
    | none => simp [hydrateOne, projectOutcome, hp]
    | some pid =>
        cases hc : (resolveEntity cfg up now Kind.project pid
            (getWorkspaceName cfg up now e.workspace_id st).2).1.bind
            Entity.clientId with
        | none => simp [hydrateOne, projectOutcome, hp, hc]
        | some cid => simp [hydrateOne, projectOutcome, hp, hc]
  · cases hp : e.project_id with
    | none =>
        simp [hydrateOne, projectOutcome, hp, getWorkspaceName_log]
    | some pid =>
        cases hc : (resolveEntity cfg up now Kind.project pid
            (getWorkspaceName cfg up now e.workspace_id st).2).1.bind
            Entity.clientId with
        | none =>
            simp [hydrateOne, projectOutcome, hp, hc, resolveEntity_log,
              getWorkspaceName_log, List.append_assoc]
        | some cid =>
            simp [hydrateOne, projectOutcome, hp, hc, resolveEntity_log,
              getWorkspaceName_log, getClientName_log, List.append_assoc]

/-- Running any single handler trace from a clean state keeps the
cached-kinds invalidation check satisfied and leaves no cached kind
dirty. -/
lemma stepCached_run_tool : ∀ (t : ToolName) (ok dt : Bool), ∃ dt',
    (handlerTrace t).foldl stepCached (ok, ⟨false, false, false, dt⟩) =
      (ok, ⟨false, false, false, dt'⟩) := by
  decide

/-- Concatenating handler traces preserves the cached-kinds invalidation
check. -/
lemma stepCached_run_seq (seq : List ToolName) : ∀ (ok dt : Bool),
    ((seq.map handlerTrace).flatten.foldl stepCached
      (ok, ⟨false, false, false, dt⟩)).1 = ok := by
  induction seq with
  | nil => intro ok dt; rfl
  | cons t ts ih =>
      intro ok dt
      rw [List.map_cons, List.flatten_cons, List.foldl_append]
      obtain ⟨dt', h⟩ := stepCached_run_tool t ok dt
      rw [h]
      exact ih ok dt'

/-- C1 (counterexample): the claim as stated fails on the code.  The
toggl_update_time_entry handler performs an external time-entry write and
then hydrates the updated entry — cache lookups follow the write with no
cache invalidation in between; toggl_delete_time_entry performs a
time-entry write and never invalidates, so the lookups of the next tool
call also follow it without invalidation. -/
theorem invalidation_after_mutation_counterexample :
    writesInvalidatedStrict
      (([ToolName.toggl_update_time_entry].map handlerTrace).flatten) = false
    ∧ writesInvalidatedStrict
      (([ToolName.toggl_delete_time_entry,
         ToolName.toggl_get_time_entries].map handlerTrace).flatten) = false := by
  decide

/-- C1 (amended): every external create/update/delete of a cached kind —
a workspace, project or client — performed by a tool handler is followed by
full cache invalidation before any subsequent cache lookup, across any
sequence of tool calls (toggl_create_client, toggl_create_project and
toggl_update_project call cache.clearCache() immediately after the write;
no handler writes workspaces).  Time-entry mutations are not followed by
invalidation, which cannot serve a stale cached value because time entries
are never stored in the cache. -/
theorem invalidation_after_mutation_amended (seq : List ToolName) :
    writesInvalidatedCached ((seq.map handlerTrace).flatten) = true := by
  unfold writesInvalidatedCached
  have h := stepCached_run_seq seq true false
  simpa [DirtyKinds.clean] using h

/-- C9: a failed lazy warm in ensureCache is swallowed: the call returns
normally, cacheWarmed stays false, and the next ensureCache call attempts
warmCache again; once warmed (by ensureCache or the toggl_warm_cache tool)
no further warm is attempted until toggl_clear_cache or a project/client
mutation handler resets the flag.  A failed toggl_warm_cache leaves the
flag unchanged (the exception becomes an error response). -/
theorem ensure_cache_warm_flag :
    (∀ s : SrvState, ensureCache false s = (s, !s.cacheWarmed))
    ∧ (ensureCache true ⟨false⟩ = (⟨true⟩, true))
    ∧ (∀ wk : Bool, ensureCache wk ⟨true⟩ = (⟨true⟩, false))
    ∧ (∀ wk : Bool, (ensureCache wk ((ensureCache false ⟨false⟩).1)).2 = true)
    ∧ (∀ s : SrvState, warmCacheTool true s = (⟨true⟩, false))
    ∧ (∀ s : SrvState, warmCacheTool false s = (s, true))
    ∧ (∀ s : SrvState, (resetWarmFlag s).cacheWarmed = false) := by
  refine ⟨?_, rfl, ?_, ?_, ?_, ?_, ?_⟩
  · intro s
    cases s with
    | mk w => cases w <;> rfl
  · intro wk; cases wk <;> rfl
  · intro wk; cases wk <;> rfl
  · intro s; rfl
  · intro s
    cases s with
    | mk w => rfl
  · intro s; rfl

/-- C8 (counterexample): the claim as stated fails on the code.  A tool
case that throws an exception whose message is the empty string is
serialized with the fallback text, not with the exception's message:
error.message is falsy there, so the catch substitutes the fixed fallback
string. -/
theorem tool_handler_never_rejects_counterexample :
    dispatch ⟨fun _ => CaseResult.failure ""⟩ "toggl_check_auth" =
      CaseResult.failure ""
    ∧ handleRequest ⟨fun _ => CaseResult.failure ""⟩ "toggl_check_auth" =
      ⟨true, true, "An error occurred"⟩
    ∧ handleRequest ⟨fun _ => CaseResult.failure ""⟩ "toggl_check_auth" ≠
      ⟨true, true, ""⟩ := by
  refine ⟨rfl, rfl, ?_⟩
  intro h
  have h' := congrArg ToolResponse.message h
  simp [handleRequest, dispatch, toolNameOf] at h'

/-- C8 (amended): for every tool name and every outcome of the case bodies,
the CallToolRequestSchema handler returns a content response and never
rejects; an exception thrown inside a tool case (including the
Unknown-tool error) is caught and serialized with error: true and the
exception's message when the message is nonempty, and with the fixed
fallback text when the message is empty. -/
theorem tool_handler_never_rejects_amended (env : CaseEnv) (name : String) :
    (handleRequest env name).isContent = true
    ∧ (∀ m, dispatch env name = CaseResult.failure m →
        handleRequest env name =
          ⟨true, true, if m = "" then "An error occurred" else m⟩)
    ∧ (toolNameOf name = none →
        handleRequest env name = ⟨true, true, "Unknown tool: " ++ name⟩) := by
  refine ⟨?_, ?_, ?_⟩
  · unfold handleRequest
    rcases dispatch env name with b | m
    · rfl
    · rfl
  · intro m hm
    simp [handleRequest, hm]
  · intro hn
    have hne : ("Unknown tool: " ++ name) ≠ "" := by
      intro h
      have hl := congrArg String.length h
      simp [String.length_append] at hl
      exact absurd hl.1 (by decide)
    simp [handleRequest, dispatch, hn, hne]

/-- C8 witness: at a concrete environment whose case bodies throw with the
message "boom", and at a concrete unknown tool name, the handler returns
the serialized error content. -/
theorem tool_handler_never_rejects_witness :
    (handleRequest ⟨fun _ => CaseResult.failure "boom"⟩ "toggl_start_timer").isContent
      = true
    ∧ handleRequest ⟨fun _ => CaseResult.failure "boom"⟩ "toggl_start_timer" =
      ⟨true, true, "boom"⟩
    ∧ handleRequest ⟨fun _ => CaseResult.failure "x"⟩ "nope" =
      ⟨true, true, "Unknown tool: nope"⟩ := by
  refine ⟨?_, ?_, ?_⟩
  · exact (tool_handler_never_rejects_amended ⟨fun _ => CaseResult.failure "boom"⟩
      "toggl_start_timer").1
  · have h := (tool_handler_never_rejects_amended
      ⟨fun _ => CaseResult.failure "boom"⟩ "toggl_start_timer").2.1 "boom" rfl
    simpa using h
  · have h := (tool_handler_never_rejects_amended
      ⟨fun _ => CaseResult.failure "x"⟩ "nope").2.2 rfl
    simpa using h

/-- C10 (counterexample): the claim as stated fails on the code.  With a
start time and duration 0 provided but no stop, the claim requires stop to
be derived as start + 0 ms; the code instead takes duration 0 as falsy
(JavaScript truthiness), falls into the neither-provided branch and throws
the Either-stop-or-duration error, performing no upstream create. -/
theorem create_entry_stop_duration_counterexample :
    deriveStopDuration 0 none (some 0) =
      Except.error "Either stop or duration is required"
    ∧ deriveStopDuration 0 none (some 0) ≠ Except.ok (0, 0)
    ∧ createEntryUpstreamCalls 0 none (some 0) = 0 := by
  refine ⟨rfl, ?_, rfl⟩
  intro h
  simp [deriveStopDuration, truthyDur] at h

/-- C10 (amended): in toggl_create_entry, given a start time: if stop is
provided and duration is absent or zero, duration is derived as
Math.ceil((stop - start) / 1000) seconds; if a nonzero duration is provided
without stop, stop is derived as start + duration * 1000 milliseconds; if
stop is absent and duration is absent or zero, the call fails with the
error "Either stop or duration is required" and no upstream create is
performed. -/
theorem create_entry_stop_duration_amended (startMs s d : Int) :
    deriveStopDuration startMs (some s) none =
      Except.ok (s, ceilDiv1000 (s - startMs))
    ∧ deriveStopDuration startMs (some s) (some 0) =
      Except.ok (s, ceilDiv1000 (s - startMs))
    ∧ (d ≠ 0 → deriveStopDuration startMs none (some d) =
        Except.ok (startMs + d * 1000, d))
    ∧ deriveStopDuration startMs none none =
      Except.error "Either stop or duration is required"
    ∧ deriveStopDuration startMs none (some 0) =
      Except.error "Either stop or duration is required"
    ∧ createEntryUpstreamCalls startMs none none = 0
    ∧ createEntryUpstreamCalls startMs none (some 0) = 0 := by
  refine ⟨?_, ?_, ?_, ?_, ?_, ?_, ?_⟩
  · simp [deriveStopDuration, truthyDur]
  · simp [deriveStopDuration, truthyDur]
  · intro hd
    simp [deriveStopDuration, truthyDur, hd]
  · simp [deriveStopDuration, truthyDur]
  · simp [deriveStopDuration, truthyDur]
  · simp [createEntryUpstreamCalls, deriveStopDuration, truthyDur]
  · simp [createEntryUpstreamCalls, deriveStopDuration, truthyDur]

/-- C10 witness: a concrete thirty-second entry starting at the epoch:
providing stop 1500 ms derives duration 2 s (rounded up); providing
duration 30 s derives stop 30000 ms. -/
theorem create_entry_stop_duration_witness :
    deriveStopDuration 0 (some 1500) none = Except.ok (1500, 2)
    ∧ deriveStopDuration 0 none (some 30) = Except.ok (30000, 30) := by
  constructor
  · have h := (create_entry_stop_duration_amended 0 1500 30).1
    simpa using h
  · have h := (create_entry_stop_duration_amended 0 1500 30).2.2.1 (by decide)
    simpa using h

/-- C5: when a single-entity name lookup misses the cache and the upstream
fetch fails, the operation returns the clearly-marked placeholder name
instead of raising, increments misses by 1 and leaves hits untouched; and
a batch hydration of an entry whose project is uncached while the upstream
is unreachable still returns one hydrated entry per input, carrying the
placeholder project name, with misses incremented by exactly 1 (the
workspace, cached, counts as a hit). -/
theorem placeholder_on_upstream_failure (cfg : CacheConfig) (up : Upstream)
    (now : Nat) (st : CMState) (e : TimeEntry) (pid : Nat) (went : Entity)
    (hw : (storeGet cfg now st.store (Kind.workspace, e.workspace_id)).1 =
      some went)
    (hp : e.project_id = some pid)
    (habs : storeLookup st.store (Kind.project, pid) = none)
    (hup : up.fetchProject pid = none) :
    (getProjectName cfg up now pid st).1 = placeholderName
    ∧ (getProjectName cfg up now pid st).2.misses = st.misses + 1
    ∧ (getProjectName cfg up now pid st).2.hits = st.hits
    ∧ (hydrateTimeEntries cfg up now [e] st).1 =
        [⟨e, went.name, some placeholderName, none⟩]
    ∧ (hydrateTimeEntries cfg up now [e] st).2.misses = st.misses + 1
    ∧ (hydrateTimeEntries cfg up now [e] st).2.hits = st.hits + 1 := by
  have hfk : fetchKind up Kind.project pid = none := hup
  have hg0 : (storeGet cfg now st.store (Kind.project, pid)).1 = none := by
    rw [storeGet_none_of_lookup_none cfg now st.store (Kind.project, pid) habs]
  have hA := resolveEntity_miss_fail cfg up now Kind.project pid st hg0 hfk
  obtain ⟨we, hwl, hwv, hwf, hsnd⟩ :=
    storeGet_hit_decomp cfg now st.store (Kind.workspace, e.workspace_id)
      went hw
  have hne : ((Kind.project, pid) : CacheKey) ≠
      (Kind.workspace, e.workspace_id) := by simp
  have hl2 : storeLookup
      (storeGet cfg now st.store (Kind.workspace, e.workspace_id)).2
      (Kind.project, pid) = none := by
    rw [hsnd]
    simp [storeLookup,
      storeLookup_invalidate_ne st.store (Kind.workspace, e.workspace_id)
        (Kind.project, pid) hne, habs]
  have hWres := resolveEntity_hit cfg up now Kind.workspace e.workspace_id
    st went hw
  have hwname : getWorkspaceName cfg up now e.workspace_id st =
      (went.name, { st with
        store := (storeGet cfg now st.store (Kind.workspace, e.workspace_id)).2
        hits := st.hits + 1
        log := st.log ++ [Kind.workspace] }) := by
    simp [getWorkspaceName, hWres]
  have hg2 : (storeGet cfg now
      (({ st with
          store :=
            (storeGet cfg now st.store (Kind.workspace, e.workspace_id)).2
          hits := st.hits + 1
          log := st.log ++ [Kind.workspace] } : CMState)).store
      (Kind.project, pid)).1 = none := by
    show (storeGet cfg now
      (storeGet cfg now st.store (Kind.workspace, e.workspace_id)).2
      (Kind.project, pid)).1 = none
    rw [storeGet_none_of_lookup_none cfg now _ (Kind.project, pid) hl2]
  have hPres := resolveEntity_miss_fail cfg up now Kind.project pid
    ({ st with
        store := (storeGet cfg now st.store (Kind.workspace, e.workspace_id)).2
        hits := st.hits + 1
        log := st.log ++ [Kind.workspace] } : CMState) hg2 hfk
  refine ⟨?_, ?_, ?_, ?_, ?_, ?_⟩
  · simp [getProjectName, hA]
  · simp [getProjectName, hA]
  · simp [getProjectName, hA]
  · simp [hydrateTimeEntries, hydrateOne, hp, hwname, hPres]
  · simp [hydrateTimeEntries, hydrateOne, hp, hwname, hPres]
  · simp [hydrateTimeEntries, hydrateOne, hp, hwname, hPres]

/-- C5 witness: a concrete state caching only workspace 1 named Acme, an
unreachable upstream, and an entry referencing uncached project 10: the
single hydrated output carries the placeholder project name, one miss is
recorded, and the project-name lookup degrades to the placeholder. -/
theorem placeholder_on_upstream_failure_witness :
    (getProjectName ⟨100, 10, 10⟩
      ⟨fun _ => none, fun _ => none, fun _ => none⟩ 1 10
      ⟨[((Kind.workspace, 1), ⟨⟨1, "Acme", none⟩, 0⟩)], 0, 0, 0, []⟩).1 =
      placeholderName
    ∧ (hydrateTimeEntries ⟨100, 10, 10⟩
        ⟨fun _ => none, fun _ => none, fun _ => none⟩ 1
        [⟨100, 1, some 10, ""⟩]
        ⟨[((Kind.workspace, 1), ⟨⟨1, "Acme", none⟩, 0⟩)], 0, 0, 0, []⟩).1 =
      [⟨⟨100, 1, some 10, ""⟩, "Acme", some placeholderName, none⟩]
    ∧ (hydrateTimeEntries ⟨100, 10, 10⟩
        ⟨fun _ => none, fun _ => none, fun _ => none⟩ 1
        [⟨100, 1, some 10, ""⟩]
        ⟨[((Kind.workspace, 1), ⟨⟨1, "Acme", none⟩, 0⟩)], 0, 0, 0, []⟩).2.misses
      = 1 := by
  have h := placeholder_on_upstream_failure ⟨100, 10, 10⟩
    ⟨fun _ => none, fun _ => none, fun _ => none⟩ 1
    ⟨[((Kind.workspace, 1), ⟨⟨1, "Acme", none⟩, 0⟩)], 0, 0, 0, []⟩
    ⟨100, 1, some 10, ""⟩ 10 ⟨1, "Acme", none⟩
    (by decide) rfl (by decide) rfl
  exact ⟨h.1, h.2.2.2.1, h.2.2.2.2.1⟩

/-- C7 (counterexample): the claim as stated fails on the code.  With 1 hit
and 2 misses the toggl_cache_stats handler reports a hit rate of 33
percent, but 33 / 100 is not equal to 1 / (1 + 2): the reported rate is the
ratio rounded to a whole percentage, not the exact ratio. -/
theorem cache_stats_hit_rate_counterexample :
    hitRatePercent 1 2 = 33
    ∧ ¬ ((hitRatePercent 1 2 : ℚ) / 100 = (1 : ℚ) / (1 + 2)) := by
  constructor
  · rfl
  · rw [show hitRatePercent 1 2 = 33 from rfl]
    norm_num

/-- C7 (amended): getStats returns a snapshot of the counters hits, misses,
evictions and size, and the hit rate reported by toggl_cache_stats is the
percentage Math.round(100 * hits / (hits + misses)) — the exact ratio
rounded to a whole percent — defined as 0 when hits and misses are both
zero. -/
theorem cache_stats_hit_rate_amended (h m : Nat) (st : CMState) :
    getStats st = ⟨st.hits, st.misses, st.evictions, st.store.length⟩
    ∧ (0 < h + m →
        (hitRatePercent h m : ℤ) = round ((100 * (h : ℚ)) / ((h : ℚ) + m)))
    ∧ (h + m = 0 → hitRatePercent h m = 0) := by
  refine ⟨rfl, ?_, ?_⟩
  · intro hn
    have hq : (0 : ℚ) < (h : ℚ) + m := by exact_mod_cast hn
    have hq0 : ((h : ℚ) + m) ≠ 0 := ne_of_gt hq
    have e1 : hitRatePercent h m = (200 * h + (h + m)) / (2 * (h + m)) := by
      simp [hitRatePercent, hn]
    rw [e1]
    have e2 : ((200 * h + (h + m)) / (2 * (h + m)) : ℕ) =
        ⌊(((200 * h + (h + m) : ℕ) : ℚ)) / (((2 * (h + m) : ℕ) : ℚ))⌋₊ := by
      rw [Nat.floor_div_eq_div]
    rw [e2]
    have hnn : (0 : ℚ) ≤
        (((200 * h + (h + m) : ℕ) : ℚ)) / (((2 * (h + m) : ℕ) : ℚ)) := by
      positivity
    rw [Int.natCast_floor_eq_floor hnn, round_eq]
    congr 1
    push_cast
    field_simp
    ring
  · intro hz
    simp [hitRatePercent, hz]

/-- C7 witness: with 3 hits and 1 miss the reported rate is the rounded
percentage of 3/4, and with no lookups at all it is 0; the snapshot
equation holds at a concrete state. -/
theorem cache_stats_hit_rate_witness :
    (hitRatePercent 3 1 : ℤ) = round ((100 * (3 : ℚ)) / ((3 : ℚ) + 1))
    ∧ hitRatePercent 0 0 = 0
    ∧ getStats ⟨[], 5, 6, 7, []⟩ = ⟨5, 6, 7, 0⟩ := by
  refine ⟨?_, ?_, ?_⟩
  · exact (cache_stats_hit_rate_amended 3 1 ⟨[], 0, 0, 0, []⟩).2.1 (by decide)
  · exact (cache_stats_hit_rate_amended 0 0 ⟨[], 0, 0, 0, []⟩).2.2 rfl
  · exact (cache_stats_hit_rate_amended 0 0 ⟨[], 5, 6, 7, []⟩).1

end Toggl
